import Mathlib

/-
  Verification of the persistent document store of `resume_manager.py`
  (Resume-Manager repository): the atomic-save / load-retry-recover storage
  engine and the validated CRUD operations on the resume document.

  The Python code is shallowly embedded:
  * JSON scalar values are `JVal`; JSON objects are ordered association lists
    (Python dicts preserve insertion order).
  * `str.strip()` is `pyStrip` (drop ASCII whitespace from both ends).
  * The environment (transient `PermissionError`/`OSError` failures of
    `os.replace` and of file reads, and success of the best-effort corrupt
    backup copy) is supplied by boolean oracles indexed by attempt number.
  * An operation that in Python returns `False` without calling `atomic_save`
    is modelled as returning `none`; `some d'` means the operation succeeded
    and persisted `d'`.
-/

namespace ResumeManager

/-- A JSON scalar value, enough to model the dynamically-typed fields that
flow through the settings dictionaries. -/
inductive JVal where
  | jnull
  | jbool (b : Bool)
  | jint (n : Int)
  | jstr (s : String)
deriving DecidableEq

/-- ASCII whitespace as stripped by Python `str.strip()`. -/
def isPyWS (c : Char) : Bool :=
  c = ' ' || c = '\t' || c = '\n' || c = '\x0d' || c = '\x0b' || c = '\x0c'

/-- Strip `isPyWS` characters from both ends of a character list. -/
def stripChars (l : List Char) : List Char :=
  ((l.dropWhile isPyWS).reverse.dropWhile isPyWS).reverse

/-- Model of Python `(s or "").strip()` on a string argument. -/
def pyStrip (s : String) : String := ⟨stripChars s.data⟩

/-- One entry of a category: `resume_manager.py` lines 169-174.
`link` is `none` when the trimmed link was empty (Python stores `None`). -/
structure Entry where
  name : String
  link : Option String
  date : String
  created_at : String
deriving DecidableEq

/-- A JSON object (e.g. the `personal_details` dict), insertion ordered. -/
abbrev Obj := List (String × JVal)

/-- The `categories` dict: category name to ordered entry list. -/
abbrev Categories := List (String × List Entry)

/-- The stored `settings` dict. Fields may be absent from a hand-written
file, and a parsed file may hold values of any JSON type. -/
structure SettingsObj where
  columns : Option JVal
  separator : Option JVal
deriving DecidableEq

/-- A document with all three top-level keys present (the shape `load_data`
returns and the CRUD layer operates on). -/
structure Document where
  personal_details : Obj
  categories : Categories
  settings : SettingsObj
deriving DecidableEq

/-- A parsed file before normalization: any of the three top-level keys may
be absent (`load_data` lines 97-103 fill them in). -/
structure RawDoc where
  personal_details : Option Obj
  categories : Option Categories
  settings : Option SettingsObj
deriving DecidableEq

/-- The default settings sub-structure (`default_structure`, lines 47-50). -/
def defaultSettings : SettingsObj :=
  { columns := some (.jint 2), separator := some (.jbool true) }

/-- `default_structure()` (lines 43-51). -/
def default_structure : Document :=
  { personal_details := [], categories := [], settings := defaultSettings }

/-- View a full document as a raw document with every key present (what
`atomic_save` writes when handed a full document). -/
def Document.toRaw (d : Document) : RawDoc :=
  { personal_details := some d.personal_details
    categories := some d.categories
    settings := some d.settings }

/-- The normalization performed by `load_data` after a successful parse
(lines 97-103): each missing top-level key is populated with its default
sub-structure; present keys are kept as parsed. -/
def normalizeDoc (r : RawDoc) : Document :=
  { personal_details := r.personal_details.getD []
    categories := r.categories.getD []
    settings := r.settings.getD defaultSettings }

/-! ### Ordered-dict helpers (Python dict semantics on association lists) -/

/-- `k in cats` for a Python dict. -/
def hasKey : Categories → String → Bool
  | [], _ => false
  | p :: t, k => p.1 == k || hasKey t k

/-- `cats.get(k)` for a Python dict (first pair carrying the key). -/
def getKey : Categories → String → Option (List Entry)
  | [], _ => none
  | p :: t, k => if p.1 == k then some p.2 else getKey t k

/-- Replace the value stored at key `k` by `f` of it, in place. -/
def mapVal : Categories → String → (List Entry → List Entry) → Categories
  | [], _, _ => []
  | p :: t, k, f => (if p.1 == k then (p.1, f p.2) else p) :: mapVal t k f

/-- `cats[k] = v` for an existing key (keeps the key's position). -/
def setKey (cats : Categories) (k : String) (v : List Entry) : Categories :=
  mapVal cats k (fun _ => v)

/-- `del cats[k]` for a Python dict. -/
def eraseKey : Categories → String → Categories
  | [], _ => []
  | p :: t, k => if p.1 == k then eraseKey t k else p :: eraseKey t k

/-- `cats[k].append(e)` for an existing key. -/
def appendEntry (cats : Categories) (k : String) (e : Entry) : Categories :=
  mapVal cats k (fun es => es ++ [e])

/-- Number of pairs carrying key `k` (1 or 0 for genuine dict states). -/
def keyCount : Categories → String → Nat
  | [], _ => 0
  | p :: t, k => (if p.1 == k then 1 else 0) + keyCount t k

/-! ### Storage engine (`atomic_save`, `load_data`) -/

/-- The on-disk state of `resume_data.json`. -/
inductive FileState where
  | missing
  | corrupt (content : String)
  | valid (doc : RawDoc)
deriving DecidableEq

/-- The observable store: the data file plus the corrupt-backup files
written alongside it (represented by their contents, in creation order). -/
structure StoreState where
  file : FileState
  backups : List String
deriving DecidableEq

/-- Result of `atomic_save`: the new file state, or the `PermissionError`
raised to the caller after retry exhaustion (line 78). -/
inductive SaveResult where
  | ok (fs : FileState)
  | permError
deriving DecidableEq

/-- The `os.replace` retry loop of `atomic_save` (lines 70-79).
`fails k` says whether the rename at attempt index `k` raises
`PermissionError`.  `fuel` is the number of further attempts allowed after
the current one (`max_attempts - attempts - 1` in the Python counter), so
the loop as a whole tries attempts `0 .. max_attempts - 1` and raises after
the `max_attempts`-th consecutive failure. -/
def renameLoopAux (fails : Nat → Bool) : Nat → Nat → Bool
  | attempts, 0 => !(fails attempts)
  | attempts, fuel + 1 =>
    if fails attempts then renameLoopAux fails (attempts + 1) fuel else true

/-- `atomic_save(data, max_attempts)` (lines 53-85).  Serializing to the
temporary file always succeeds in this model; the oracle `renameFails`
drives the rename retry loop.  On success the target file holds exactly the
saved value; on exhaustion the `PermissionError` propagates and the target
file is untouched (the temp file is cleaned up on every exit path). -/
def atomic_save (d : RawDoc) (renameFails : Nat → Bool) (max_attempts : Nat) : SaveResult :=
  if renameLoopAux renameFails 0 (max_attempts - 1) then .ok (.valid d) else .permError

/-- One outcome of `load_data` (lines 87-119): either a document is
returned with the store in a given state, or an exception escapes (only
possible from the `atomic_save` inside corruption recovery, which runs in
the `except` block and is therefore not caught). -/
inductive LoadResult where
  | returned (doc : Document) (st : StoreState)
  | raised (st : StoreState)
deriving DecidableEq

/-- The retry loop of `load_data` (lines 89-117).  `ioFail k` says whether
attempt `k` raises a transient `PermissionError`/`OSError` while checking
or reading the file; `backupOk` says whether the best-effort
`shutil.copy2` of a corrupt file succeeds; `renameFails` drives the rename
loop of any `atomic_save` issued inside the call.  A failed bootstrap save
(missing-file path, inside the `try`) is caught as transient and retried;
a failed recovery save (corrupt path, inside the `except` block) raises. -/
def loadAttempts (ioFail : Nat → Bool) (backupOk : Bool) (renameFails : Nat → Bool) :
    StoreState → Nat → Nat → LoadResult
  | st, _, 0 => .returned default_structure st
  | st, attempt, fuel + 1 =>
    if ioFail attempt then
      loadAttempts ioFail backupOk renameFails st (attempt + 1) fuel
    else
      match st.file with
      | .missing =>
        match atomic_save default_structure.toRaw renameFails 8 with
        | .ok fs => .returned default_structure ⟨fs, st.backups⟩
        | .permError => loadAttempts ioFail backupOk renameFails st (attempt + 1) fuel
      | .corrupt content =>
        match atomic_save default_structure.toRaw renameFails 8 with
        | .ok fs =>
          .returned default_structure
            ⟨fs, if backupOk then st.backups ++ [content] else st.backups⟩
        | .permError =>
          .raised ⟨st.file, if backupOk then st.backups ++ [content] else st.backups⟩
      | .valid r => .returned (normalizeDoc r) st

/-- `load_data(retries)` (lines 87-119).  When every attempt fails
transiently the loop falls through and a fresh default document is returned
without being persisted (lines 118-119). -/
def load_data (ioFail : Nat → Bool) (backupOk : Bool) (renameFails : Nat → Bool)
    (st : StoreState) (retries : Nat) : LoadResult :=
  loadAttempts ioFail backupOk renameFails st 0 retries

/-! ### Document service (CRUD, lines 122-209) -/

/-- Python `int(v)` on a JSON scalar: `none` models the raised
`TypeError`/`ValueError`. -/
def pyInt : JVal → Option Int
  | .jnull => none
  | .jbool b => some (if b then 1 else 0)
  | .jint n => some n
  | .jstr s => (pyStrip s).toInt?

/-- Python `bool(v)` on a JSON scalar. -/
def pyTruthy : JVal → Bool
  | .jnull => false
  | .jbool b => b
  | .jint n => n != 0
  | .jstr s => s != ""

/-- The `details` argument of `set_personal_details`; `none` models an
absent or `None` field (`details.get(k) or ""` turns both into `""`). -/
structure ProfileInput where
  name : Option String
  email : Option String
  phone : Option String
  address : Option String
  dob : Option String
  summary : Option String

/-- `set_personal_details(details)` (lines 122-134), minus the surrounding
`load_data`/`atomic_save`: always succeeds, replacing the profile with the
trimmed fields plus `updated_at := today`. -/
def set_personal_details (details : ProfileInput) (today : String) (d : Document) : Document :=
  { d with personal_details := [
      ("name", .jstr (pyStrip (details.name.getD ""))),
      ("email", .jstr (pyStrip (details.email.getD ""))),
      ("phone", .jstr (pyStrip (details.phone.getD ""))),
      ("address", .jstr (pyStrip (details.address.getD ""))),
      ("dob", .jstr (pyStrip (details.dob.getD ""))),
      ("summary", .jstr (pyStrip (details.summary.getD ""))),
      ("updated_at", .jstr today)] }

/-- `add_category(name)` (lines 139-149): `none` = returns `False` with no
write; `some d'` = persists `d'` and returns `True`. -/
def add_category (name : String) (d : Document) : Option Document :=
  if pyStrip name = "" then none
  else if hasKey d.categories (pyStrip name) then none
  else some { d with categories := d.categories ++ [(pyStrip name, [])] }

/-- `delete_category(name)` (lines 151-158).  Note: the argument is matched
verbatim, it is not trimmed. -/
def delete_category (name : String) (d : Document) : Option Document :=
  if hasKey d.categories name then
    some { d with categories := eraseKey d.categories name }
  else none

/-- The entry dict built by `add_entry` (lines 168-174): the name and link
are trimmed, an empty trimmed link is stored as `None`, the date is
`(date or "").strip() or today`, and `created_at` is the current
timestamp. -/
def mkAddedEntry (name : String) (link date : Option String) (today now : String) : Entry :=
  { name := pyStrip name,
    link := if pyStrip (link.getD "") = "" then none else some (pyStrip (link.getD "")),
    date := if pyStrip (date.getD "") = "" then today else pyStrip (date.getD ""),
    created_at := now }

/-- `add_entry(category, name, link, date)` (lines 160-179).  The entry
name is rejected when it strips to empty (line 175), before anything is
appended or saved. -/
def add_entry (category name : String) (link date : Option String)
    (today now : String) (d : Document) : Option Document :=
  if pyStrip category = "" then none
  else if hasKey d.categories (pyStrip category) then
    if pyStrip name = "" then none
    else some { d with categories := appendEntry d.categories (pyStrip category) (mkAddedEntry name link date today now) }
  else none

/-- Resolution of a Python list index for `del items[index]` on a list of
length `n`: indices in `[0, n)` address from the front, indices in
`[-n, 0)` address from the end, anything else raises `IndexError`. -/
def pyIdx (n : Nat) (i : Int) : Option Nat :=
  if 0 ≤ i ∧ i < (n : Int) then some i.toNat
  else if -(n : Int) ≤ i ∧ i < 0 then some ((n : Int) + i).toNat
  else none

/-- `delete_entry(category, index)` (lines 181-192).  The category is
trimmed before lookup (line 184); `if not items` rejects both a missing
key and an empty list; `del items[index]` follows Python index semantics
and its `IndexError` is caught and turned into `False`. -/
def delete_entry (category : String) (index : Int) (d : Document) : Option Document :=
  match getKey d.categories (pyStrip category) with
  | none => none
  | some items =>
    if items.isEmpty then none
    else
      match pyIdx items.length index with
      | none => none
      | some j =>
        some { d with categories := setKey d.categories (pyStrip category) (items.eraseIdx j) }

/-- The partial-update argument of `set_settings`; `none` models a key
absent from the dict, `some .jnull` a key present with value `None`. -/
structure SettingsInput where
  columns : Option JVal
  separator : Option JVal
deriving DecidableEq

/-- The sanitized settings dict written by `set_settings` (lines 203-208):
`columns` is the coerced integer `c` clamped to 2 when outside `{1, 2}`;
`separator` is `bool(...)` of the supplied value, falling back to the
stored value and then to `True`. -/
def sanitizedSettings (new : SettingsInput) (stored : SettingsObj) (c : Int) : SettingsObj :=
  { columns := some (.jint (if c = 1 ∨ c = 2 then c else 2)),
    separator := some (.jbool (pyTruthy (new.separator.getD (stored.separator.getD (.jbool true))))) }

/-- `set_settings(new_settings)` (lines 199-209), minus the surrounding
`load_data`/`atomic_save`: `none` models the exception raised by `int(...)`
on an uncoercible value (nothing is persisted in that case, the mutation
happens after the coercions). -/
def set_settings (new : SettingsInput) (d : Document) : Option Document :=
  match pyInt (new.columns.getD (d.settings.columns.getD (.jint 2))) with
  | none => none
  | some c => some { d with settings := sanitizedSettings new d.settings c }

/-- Every entry of every category has a name that is non-empty after
trimming. -/
def entryNamesOK (d : Document) : Prop :=
  ∀ p ∈ d.categories, ∀ e ∈ p.2, pyStrip e.name ≠ ""

/-- Document states reachable from the default document through the
Document Service operations (a failed operation, `none`, leaves the state
unchanged and so adds nothing). -/
inductive Reachable : Document → Prop where
  | init : Reachable default_structure
  | setPersonal {d : Document} (pr : ProfileInput) (today : String) :
      Reachable d → Reachable (set_personal_details pr today d)
  | addCat {d d' : Document} (n : String) :
      Reachable d → add_category n d = some d' → Reachable d'
  | delCat {d d' : Document} (n : String) :
      Reachable d → delete_category n d = some d' → Reachable d'
  | addEnt {d d' : Document} (c n : String) (l dt : Option String) (today now : String) :
      Reachable d → add_entry c n l dt today now d = some d' → Reachable d'
  | delEnt {d d' : Document} (c : String) (i : Int) :
      Reachable d → delete_entry c i d = some d' → Reachable d'
  | setSet {d d' : Document} (s : SettingsInput) :
      Reachable d → set_settings s d = some d' → Reachable d'

/-! ### Helper lemmas: stripping is idempotent -/

theorem dropWhile_head?_not (p : α → Bool) (l : List α) :
    ∀ c, (l.dropWhile p).head? = some c → p c = false := by
  induction l with
  | nil => intro c h; simp [List.dropWhile] at h
  | cons a t ih =>
    intro c h
    by_cases hp : p a
    · rw [List.dropWhile_cons, if_pos hp] at h
      exact ih c h
    · rw [List.dropWhile_cons, if_neg hp] at h
      simp at h
      subst h
      simpa using hp

theorem dropWhile_eq_self_of_head (p : α → Bool) (l : List α)
    (h : ∀ c, l.head? = some c → p c = false) : l.dropWhile p = l := by
  cases l with
  | nil => rfl
  | cons a t =>
    rw [List.dropWhile_cons, if_neg]
    simp [h a rfl]

theorem dropWhile_getLast? (p : α → Bool) (l : List α)
    (h : l.dropWhile p ≠ []) : (l.dropWhile p).getLast? = l.getLast? := by
  induction l with
  | nil => simp [List.dropWhile] at h
  | cons a t ih =>
    by_cases hp : p a
    · rw [List.dropWhile_cons, if_pos hp] at h ⊢
      rw [ih h]
      cases t with
      | nil => rw [List.dropWhile] at h; simp at h
      | cons b u => rw [List.getLast?_cons_cons]
    · rw [List.dropWhile_cons, if_neg hp]

theorem stripChars_idem (l : List Char) : stripChars (stripChars l) = stripChars l := by
  unfold stripChars
  by_cases hb : ((l.dropWhile isPyWS).reverse.dropWhile isPyWS) = []
  · rw [hb]; rfl
  · have h1 : (((l.dropWhile isPyWS).reverse.dropWhile isPyWS).reverse).dropWhile isPyWS
        = ((l.dropWhile isPyWS).reverse.dropWhile isPyWS).reverse := by
      apply dropWhile_eq_self_of_head
      intro c hc
      rw [List.head?_reverse] at hc
      rw [dropWhile_getLast? _ _ hb, List.getLast?_reverse] at hc
      exact dropWhile_head?_not isPyWS l c hc
    rw [h1, List.reverse_reverse]
    rw [dropWhile_eq_self_of_head]
    intro c hc
    exact dropWhile_head?_not isPyWS (l.dropWhile isPyWS).reverse c hc

theorem pyStrip_idem (s : String) : pyStrip (pyStrip s) = pyStrip s :=
  congrArg String.mk (stripChars_idem s.data)

/-! ### Helper lemmas: dict operations -/

theorem hasKey_iff_getKey (cats : Categories) (k : String) :
    hasKey cats k = true ↔ (getKey cats k).isSome = true := by
  induction cats with
  | nil => simp [hasKey, getKey]
  | cons p t ih =>
    by_cases h : p.1 == k
    · simp [hasKey, getKey, h]
    · simp only [hasKey, getKey, h, Bool.false_or, if_neg h]
      exact ih

theorem getKey_append_single (cats : Categories) (k : String) (v : List Entry)
    (h : hasKey cats k = false) : getKey (cats ++ [(k, v)]) k = some v := by
  induction cats with
  | nil => simp [getKey]
  | cons p t ih =>
    simp only [hasKey, Bool.or_eq_false_iff] at h
    have hne : ¬ (p.1 == k) = true := by rw [h.1]; exact Bool.false_ne_true
    simp only [List.cons_append, getKey, if_neg hne]
    exact ih h.2

theorem getKey_mapVal_self (cats : Categories) (k : String) (f : List Entry → List Entry) :
    getKey (mapVal cats k f) k = (getKey cats k).map f := by
  induction cats with
  | nil => rfl
  | cons p t ih =>
    by_cases hk : p.1 == k
    · simp [mapVal, getKey, hk]
    · simp only [mapVal, getKey, if_neg hk]
      exact ih

theorem getKey_mapVal_ne (cats : Categories) (k k' : String) (f : List Entry → List Entry)
    (h : k' ≠ k) : getKey (mapVal cats k f) k' = getKey cats k' := by
  induction cats with
  | nil => rfl
  | cons p t ih =>
    by_cases hk : p.1 == k
    · have hk' : ¬ (p.1 == k') = true := by
        rw [beq_iff_eq] at hk ⊢
        rw [hk]; exact fun hc => h hc.symm
      simp only [mapVal, getKey, if_pos hk, if_neg hk']
      exact ih
    · simp only [mapVal, getKey, if_neg hk]
      by_cases hk' : p.1 == k'
      · simp [getKey, hk']
      · simp only [getKey, if_neg hk']
        exact ih

theorem getKey_appendEntry_self (cats : Categories) (k : String) (e : Entry) :
    getKey (appendEntry cats k e) k = (getKey cats k).map (fun es => es ++ [e]) :=
  getKey_mapVal_self cats k _

theorem getKey_appendEntry_ne (cats : Categories) (k k' : String) (e : Entry)
    (h : k' ≠ k) : getKey (appendEntry cats k e) k' = getKey cats k' :=
  getKey_mapVal_ne cats k k' _ h

theorem getKey_setKey_self (cats : Categories) (k : String) (v : List Entry) :
    getKey (setKey cats k v) k = (getKey cats k).map (fun _ => v) :=
  getKey_mapVal_self cats k _

theorem getKey_setKey_ne (cats : Categories) (k k' : String) (v : List Entry)
    (h : k' ≠ k) : getKey (setKey cats k v) k' = getKey cats k' :=
  getKey_mapVal_ne cats k k' _ h

theorem getKey_eraseKey_self (cats : Categories) (k : String) :
    getKey (eraseKey cats k) k = none := by
  induction cats with
  | nil => rfl
  | cons p t ih =>
    by_cases hk : p.1 == k
    · simp only [eraseKey, if_pos hk]
      exact ih
    · simp only [eraseKey, if_neg hk, getKey, if_neg hk]
      exact ih

theorem getKey_eraseKey_ne (cats : Categories) (k k' : String)
    (h : k' ≠ k) : getKey (eraseKey cats k) k' = getKey cats k' := by
  induction cats with
  | nil => rfl
  | cons p t ih =>
    by_cases hk : p.1 == k
    · have hk' : ¬ (p.1 == k') = true := by
        rw [beq_iff_eq] at hk ⊢
        rw [hk]; exact fun hc => h hc.symm
      simp only [eraseKey, if_pos hk, getKey, if_neg hk']
      exact ih
    · simp only [eraseKey, if_neg hk]
      by_cases hk' : p.1 == k'
      · simp [getKey, hk']
      · simp only [getKey, if_neg hk']
        exact ih

theorem keyCount_eq_zero (cats : Categories) (k : String)
    (h : hasKey cats k = false) : keyCount cats k = 0 := by
  induction cats with
  | nil => rfl
  | cons p t ih =>
    simp only [hasKey, Bool.or_eq_false_iff] at h
    have hne : ¬ (p.1 == k) = true := by rw [h.1]; exact Bool.false_ne_true
    simp only [keyCount, if_neg hne, Nat.zero_add]
    exact ih h.2

theorem keyCount_append_single (cats : Categories) (k : String) (v : List Entry) :
    keyCount (cats ++ [(k, v)]) k = keyCount cats k + 1 := by
  induction cats with
  | nil => simp [keyCount]
  | cons p t ih =>
    rw [show (p :: t) ++ [(k, v)] = p :: (t ++ [(k, v)]) from rfl]
    simp only [keyCount, ih]
    omega

theorem hasKey_append_single (cats : Categories) (k : String) (v : List Entry) :
    hasKey (cats ++ [(k, v)]) k = true := by
  induction cats with
  | nil => simp [hasKey]
  | cons p t ih =>
    rw [show (p :: t) ++ [(k, v)] = p :: (t ++ [(k, v)]) from rfl]
    simp only [hasKey, ih, Bool.or_true]

theorem mem_of_mem_eraseIdx {l : List α} {i : Nat} {a : α}
    (h : a ∈ l.eraseIdx i) : a ∈ l := by
  induction l generalizing i with
  | nil => simp [List.eraseIdx] at h
  | cons b t ih =>
    cases i with
    | zero => exact List.mem_cons_of_mem b h
    | succ j =>
      rcases List.mem_cons.mp h with h' | h'
      · exact h' ▸ List.mem_cons_self b t
      · exact List.mem_cons_of_mem b (ih h')

theorem getKey_mem (cats : Categories) (k : String) (v : List Entry)
    (h : getKey cats k = some v) : ∃ k', (k', v) ∈ cats := by
  induction cats with
  | nil => simp [getKey] at h
  | cons p t ih =>
    by_cases hk : p.1 == k
    · simp only [getKey, if_pos hk, Option.some.injEq] at h
      refine ⟨p.1, ?_⟩
      rw [← h]
      exact List.mem_cons_self p t
    · simp only [getKey, if_neg hk] at h
      obtain ⟨k', hk'⟩ := ih h
      exact ⟨k', List.mem_cons_of_mem p hk'⟩

/-! ### Helper lemmas: storage engine -/

theorem renameLoopAux_all_fail (fails : Nat → Bool) (f a : Nat)
    (h : ∀ k, a ≤ k → k ≤ a + f → fails k = true) :
    renameLoopAux fails a f = false := by
  induction f generalizing a with
  | zero =>
    simp only [renameLoopAux, h a (Nat.le_refl a) (Nat.le_refl a), Bool.not_true]
  | succ f ih =>
    simp only [renameLoopAux, h a (Nat.le_refl a) (by omega), if_pos]
    exact ih (a + 1) (fun k h1 h2 => h k (by omega) (by omega))

theorem atomic_save_all_fail (d : RawDoc) (fails : Nat → Bool)
    (h : ∀ k, k < 8 → fails k = true) :
    atomic_save d fails 8 = .permError := by
  rw [atomic_save, renameLoopAux_all_fail fails 7 0 (fun k _ h2 => h k (by omega))]
  rfl

theorem atomic_save_ok (d : RawDoc) (fails : Nat → Bool) (m : Nat)
    (h : fails 0 = false) : atomic_save d fails m = .ok (.valid d) := by
  rw [atomic_save]
  cases hm : m - 1 with
  | zero => simp [renameLoopAux, h]
  | succ f => simp [renameLoopAux, h]

theorem loadAttempts_all_fail (io : Nat → Bool) (b : Bool) (rf : Nat → Bool)
    (st : StoreState) (fuel a : Nat)
    (h : ∀ k, a ≤ k → k < a + fuel → io k = true) :
    loadAttempts io b rf st a fuel = .returned default_structure st := by
  induction fuel generalizing a with
  | zero => rfl
  | succ fuel ih =>
    simp only [loadAttempts, h a (Nat.le_refl a) (by omega), if_pos]
    exact ih (a + 1) (fun k h1 h2 => h k (by omega) (by omega))

theorem loadAttempts_corrupt_hit (io : Nat → Bool) (b : Bool) (rf : Nat → Bool)
    (s : String) (bk : List String) (a fuel : Nat)
    (hio : io a = false) (hsv : renameLoopAux rf 0 7 = true) :
    loadAttempts io b rf ⟨.corrupt s, bk⟩ a (fuel + 1) =
      .returned default_structure
        ⟨.valid default_structure.toRaw, if b then bk ++ [s] else bk⟩ := by
  simp only [loadAttempts, hio, Bool.false_eq_true, if_false, atomic_save, hsv, if_pos]

theorem loadAttempts_corrupt_skip_hit (io : Nat → Bool) (b : Bool) (rf : Nat → Bool)
    (s : String) (bk : List String) :
    ∀ j fuel a, j < fuel →
      (∀ i, a ≤ i → i < a + j → io i = true) → io (a + j) = false →
      renameLoopAux rf 0 7 = true →
      loadAttempts io b rf ⟨.corrupt s, bk⟩ a fuel =
        .returned default_structure
          ⟨.valid default_structure.toRaw, if b then bk ++ [s] else bk⟩ := by
  intro j
  induction j with
  | zero =>
    intro fuel a hj _ hhit hsv
    obtain ⟨f, rfl⟩ : ∃ f, fuel = f + 1 := ⟨fuel - 1, by omega⟩
    exact loadAttempts_corrupt_hit io b rf s bk a f (by simpa using hhit) hsv
  | succ j ih =>
    intro fuel a hj hskip hhit hsv
    obtain ⟨f, rfl⟩ : ∃ f, fuel = f + 1 := ⟨fuel - 1, by omega⟩
    have ha : io a = true := hskip a (Nat.le_refl a) (by omega)
    simp only [loadAttempts, ha, if_pos]
    exact ih f (a + 1) (by omega)
      (fun i h1 h2 => hskip i (by omega) (by omega))
      (by rw [show a + 1 + j = a + (j + 1) from by omega]; exact hhit) hsv

theorem loadAttempts_valid (io : Nat → Bool) (b : Bool) (rf : Nat → Bool)
    (r : RawDoc) (bk : List String) (a fuel : Nat) (hio : io a = false) :
    loadAttempts io b rf ⟨.valid r, bk⟩ a (fuel + 1) =
      .returned (normalizeDoc r) ⟨.valid r, bk⟩ := by
  simp only [loadAttempts, hio, Bool.false_eq_true, if_false]

/-! ### Helper lemmas: inversion of the CRUD operations -/

theorem add_category_inv {n : String} {d d' : Document}
    (h : add_category n d = some d') :
    pyStrip n ≠ "" ∧ hasKey d.categories (pyStrip n) = false ∧
      d' = { d with categories := d.categories ++ [(pyStrip n, [])] } := by
  unfold add_category at h
  split_ifs at h with h1 h2
  injection h with h
  refine ⟨h1, ?_, h.symm⟩
  rwa [Bool.not_eq_true] at h2

theorem add_category_none_iff (n : String) (d : Document) :
    add_category n d = none ↔ (pyStrip n = "" ∨ hasKey d.categories (pyStrip n) = true) := by
  unfold add_category
  split_ifs with h1 h2
  · simp [h1]
  · simp [h2]
  · simp [h1, h2]

theorem delete_category_inv {n : String} {d d' : Document}
    (h : delete_category n d = some d') :
    hasKey d.categories n = true ∧
      d' = { d with categories := eraseKey d.categories n } := by
  unfold delete_category at h
  split_ifs at h with h1
  injection h with h
  exact ⟨h1, h.symm⟩

theorem add_entry_inv {category name : String} {link date : Option String}
    {today now : String} {d d' : Document}
    (h : add_entry category name link date today now d = some d') :
    pyStrip category ≠ "" ∧ hasKey d.categories (pyStrip category) = true ∧
      pyStrip name ≠ "" ∧
      d' = { d with categories := appendEntry d.categories (pyStrip category) (mkAddedEntry name link date today now) } := by
  unfold add_entry at h
  split_ifs at h with h1 h2 h3
  injection h with h
  exact ⟨h1, h2, h3, h.symm⟩

theorem delete_entry_inv {category : String} {index : Int} {d d' : Document}
    (h : delete_entry category index d = some d') :
    ∃ items j, getKey d.categories (pyStrip category) = some items ∧
      items.isEmpty = false ∧ pyIdx items.length index = some j ∧
      d' = { d with categories := setKey d.categories (pyStrip category) (items.eraseIdx j) } := by
  unfold delete_entry at h
  cases hkey : getKey d.categories (pyStrip category) with
  | none =>
    rw [hkey] at h
    exact Option.noConfusion h
  | some items =>
    rw [hkey] at h
    dsimp only at h
    by_cases hemp : items.isEmpty
    · rw [if_pos hemp] at h
      exact Option.noConfusion h
    · rw [if_neg hemp] at h
      cases hj : pyIdx items.length index with
      | none =>
        rw [hj] at h
        exact Option.noConfusion h
      | some j =>
        rw [hj] at h
        dsimp only at h
        injection h with h
        refine ⟨items, j, rfl, ?_, hj, h.symm⟩
        rwa [Bool.not_eq_true] at hemp

theorem set_settings_inv {new : SettingsInput} {d d' : Document}
    (h : set_settings new d = some d') :
    ∃ c : Int, pyInt (new.columns.getD (d.settings.columns.getD (.jint 2))) = some c ∧
      d' = { d with settings := sanitizedSettings new d.settings c } := by
  unfold set_settings at h
  cases hc : pyInt (new.columns.getD (d.settings.columns.getD (.jint 2))) with
  | none => rw [hc] at h; exact Option.noConfusion h
  | some c =>
    rw [hc] at h
    injection h with h
    exact ⟨c, rfl, h.symm⟩

theorem pyIdx_eq_none_iff (n : Nat) (i : Int) :
    pyIdx n i = none ↔ ¬(-(n : Int) ≤ i ∧ i < (n : Int)) := by
  constructor
  · intro h hcontra
    unfold pyIdx at h
    split_ifs at h with h1 h2
    omega
  · intro h
    unfold pyIdx
    split_ifs with h1 h2
    · exact absurd (show -(n : Int) ≤ i ∧ i < (n : Int) by omega) h
    · exact absurd (show -(n : Int) ≤ i ∧ i < (n : Int) by omega) h
    · rfl

theorem pyIdx_lt {n : Nat} {i : Int} {j : Nat} (h : pyIdx n i = some j) : j < n := by
  unfold pyIdx at h
  split_ifs at h with h1 h2
  · injection h with h
    omega
  · injection h with h
    omega

theorem mem_mapVal {cats : Categories} {k : String} {f : List Entry → List Entry}
    {p : String × List Entry} (h : p ∈ mapVal cats k f) :
    ∃ q ∈ cats, p = if q.1 == k then (q.1, f q.2) else q := by
  induction cats with
  | nil => simp [mapVal] at h
  | cons a t ih =>
    rcases List.mem_cons.mp h with h' | h'
    · exact ⟨a, List.mem_cons_self a t, h'⟩
    · obtain ⟨q, hq, hpq⟩ := ih h'
      exact ⟨q, List.mem_cons_of_mem a hq, hpq⟩

theorem mem_of_mem_eraseKey {cats : Categories} {k : String} {p : String × List Entry}
    (h : p ∈ eraseKey cats k) : p ∈ cats := by
  induction cats with
  | nil => simp [eraseKey] at h
  | cons a t ih =>
    by_cases hk : a.1 == k
    · simp only [eraseKey, if_pos hk] at h
      exact List.mem_cons_of_mem a (ih h)
    · simp only [eraseKey, if_neg hk] at h
      rcases List.mem_cons.mp h with h' | h'
      · exact h' ▸ List.mem_cons_self a t
      · exact List.mem_cons_of_mem a (ih h')

/-! ### Claim theorems -/

/-- C1: for every valid document `D` (any of the three top-level keys may
be absent), `atomic_save D` followed by `load_data` on the resulting file,
with no intervening failure, returns `D` up to normalization: each absent
top-level key is replaced by its default sub-structure and all present
content is preserved unchanged. -/
theorem save_load_roundtrip (D : RawDoc) (bk : List String) :
    atomic_save D (fun _ => false) 8 = .ok (.valid D) ∧
    load_data (fun _ => false) true (fun _ => false) ⟨.valid D, bk⟩ 6 =
      .returned (normalizeDoc D) ⟨.valid D, bk⟩ ∧
    (∀ p, D.personal_details = some p → (normalizeDoc D).personal_details = p) ∧
    (∀ c, D.categories = some c → (normalizeDoc D).categories = c) ∧
    (∀ s, D.settings = some s → (normalizeDoc D).settings = s) ∧
    (D.personal_details = none →
      (normalizeDoc D).personal_details = default_structure.personal_details) ∧
    (D.categories = none → (normalizeDoc D).categories = default_structure.categories) ∧
    (D.settings = none → (normalizeDoc D).settings = default_structure.settings) := by
  refine ⟨atomic_save_ok D _ 8 rfl,
    loadAttempts_valid (fun _ => false) true (fun _ => false) D bk 0 5 rfl,
    ?_, ?_, ?_, ?_, ?_, ?_⟩ <;> intros <;> simp_all [normalizeDoc, default_structure]

theorem save_load_roundtrip_witness :
    load_data (fun _ => false) true (fun _ => false)
      ⟨.valid ⟨some [("k", .jstr "v")], none, none⟩, []⟩ 6 =
      .returned ⟨[("k", .jstr "v")], [], defaultSettings⟩
        ⟨.valid ⟨some [("k", .jstr "v")], none, none⟩, []⟩ ∧
    (normalizeDoc ⟨some [("k", .jstr "v")], none, none⟩).personal_details = [("k", .jstr "v")] := by
  have h := save_load_roundtrip ⟨some [("k", .jstr "v")], none, none⟩ []
  exact ⟨h.2.1, h.2.2.1 [("k", .jstr "v")] rfl⟩

/-- C8: for every successfully parsed file, `load_data` returns the parsed
document with each missing top-level key populated by its default
sub-structure and every present key's content unchanged, and the resulting
store state is exactly the input state — the normalization is not written
back to disk. -/
theorem load_normalization (r : RawDoc) (b : Bool) (rf : Nat → Bool) (bk : List String) :
    load_data (fun _ => false) b rf ⟨.valid r, bk⟩ 6 =
      .returned (normalizeDoc r) ⟨.valid r, bk⟩ ∧
    (r.personal_details = none →
      (normalizeDoc r).personal_details = default_structure.personal_details) ∧
    (r.categories = none → (normalizeDoc r).categories = default_structure.categories) ∧
    (r.settings = none → (normalizeDoc r).settings = default_structure.settings) ∧
    (∀ p, r.personal_details = some p → (normalizeDoc r).personal_details = p) ∧
    (∀ c, r.categories = some c → (normalizeDoc r).categories = c) ∧
    (∀ s, r.settings = some s → (normalizeDoc r).settings = s) := by
  refine ⟨loadAttempts_valid (fun _ => false) b rf r bk 0 5 rfl,
    ?_, ?_, ?_, ?_, ?_, ?_⟩ <;> intros <;> simp_all [normalizeDoc, default_structure]

theorem load_normalization_witness :
    load_data (fun _ => false) false (fun _ => true)
      ⟨.valid ⟨none, some [("C", [])], none⟩, ["b"]⟩ 6 =
      .returned ⟨[], [("C", [])], defaultSettings⟩
        ⟨.valid ⟨none, some [("C", [])], none⟩, ["b"]⟩ ∧
    (normalizeDoc ⟨none, some [("C", [])], none⟩).settings = defaultSettings := by
  have h := load_normalization ⟨none, some [("C", [])], none⟩ false (fun _ => true) ["b"]
  exact ⟨h.1, h.2.2.2.1 rfl⟩

/-- C2: when the stored file is corrupt, the first read attempt that does
not fail transiently performs the one-shot recovery: the corrupt bytes are
copied to a backup when the best-effort copy succeeds (and only then), a
fresh default document is persisted, and that default is returned.  The
conclusion does not depend on the failure oracle beyond attempt `j`, so
the corrupt bytes are never re-read by the remaining retry attempts, and
exactly one backup is appended per occurrence. -/
theorem corrupt_recovery (io : Nat → Bool) (b : Bool) (rf : Nat → Bool)
    (s : String) (bk : List String) (j : Nat)
    (hj : j < 6) (hskip : ∀ i, i < j → io i = true) (hhit : io j = false)
    (hsave : renameLoopAux rf 0 7 = true) :
    load_data io b rf ⟨.corrupt s, bk⟩ 6 =
      .returned default_structure
        ⟨.valid default_structure.toRaw, if b then bk ++ [s] else bk⟩ :=
  loadAttempts_corrupt_skip_hit io b rf s bk j 6 0 hj
    (fun i _ h2 => hskip i (by omega)) (by simpa using hhit) hsave

theorem corrupt_recovery_witness :
    load_data (fun _ => false) true (fun _ => false) ⟨.corrupt "junk", []⟩ 6 =
      .returned default_structure ⟨.valid default_structure.toRaw, ["junk"]⟩ := by
  have h := corrupt_recovery (fun _ => false) true (fun _ => false) "junk" [] 0
    (by omega) (fun i hi => absurd hi (by omega)) rfl (by decide)
  simpa using h

/-- C3: retry exhaustion is asymmetric.  If all 8 rename attempts of
`atomic_save` fail with a transient permission error, the save raises the
failure to the caller; if all 6 read attempts of `load_data` fail with
transient errors (so no corruption is ever detected), the load returns a
fresh in-memory default document, leaving the store state unchanged —
nothing is persisted. -/
theorem retry_exhaustion_asymmetry (d : RawDoc) (sf io : Nat → Bool) (b : Bool)
    (rf : Nat → Bool) (st : StoreState)
    (hsave : ∀ k, k < 8 → sf k = true) (hload : ∀ k, k < 6 → io k = true) :
    atomic_save d sf 8 = .permError ∧
    load_data io b rf st 6 = .returned default_structure st :=
  ⟨atomic_save_all_fail d sf hsave,
    loadAttempts_all_fail io b rf st 6 0 (fun k _ h2 => hload k (by omega))⟩

theorem retry_exhaustion_asymmetry_witness :
    atomic_save default_structure.toRaw (fun _ => true) 8 = .permError ∧
    load_data (fun _ => true) true (fun _ => false) ⟨.missing, []⟩ 6 =
      .returned default_structure ⟨.missing, []⟩ :=
  retry_exhaustion_asymmetry default_structure.toRaw (fun _ => true) (fun _ => true)
    true (fun _ => false) ⟨.missing, []⟩ (fun _ _ => rfl) (fun _ _ => rfl)

/-- C4 counterexample: a non-blank date carrying surrounding whitespace is
not stored verbatim — `add_entry` stores it stripped. -/
theorem add_entry_date_trimmed_cex :
    add_entry "X" "Item" none (some " 2024-01-01 ") "2025-10-12" "T0"
      ⟨[], [("X", [])], defaultSettings⟩ =
      some ⟨[], [("X", [⟨"Item", none, "2024-01-01", "T0"⟩])], defaultSettings⟩ ∧
    (" 2024-01-01 " : String) ≠ "2024-01-01" :=
  ⟨by decide, by decide⟩

/-- C4 (amended): `add_entry` returns `True` and persists exactly when the
trimmed category is non-empty and already a key and the trimmed name is
non-empty; on success it appends, at the end of that category's sequence
and changing nothing else, an entry with the trimmed name, with the link
absent when it trims to empty, and with the date defaulting to today when
absent or blank and otherwise stored stripped of surrounding whitespace
but unvalidated; in every failing case it returns `False` with no write. -/
theorem add_entry_spec (c n : String) (l dt : Option String) (today now : String) (d : Document) :
    ((add_entry c n l dt today now d).isSome = true ↔
      (pyStrip c ≠ "" ∧ hasKey d.categories (pyStrip c) = true ∧ pyStrip n ≠ "")) ∧
    (∀ d', add_entry c n l dt today now d = some d' →
      d'.personal_details = d.personal_details ∧ d'.settings = d.settings ∧
      getKey d'.categories (pyStrip c) = (getKey d.categories (pyStrip c)).map
        (fun es => es ++ [⟨pyStrip n, if pyStrip (l.getD "") = "" then none else some (pyStrip (l.getD "")), if pyStrip (dt.getD "") = "" then today else pyStrip (dt.getD ""), now⟩]) ∧
      (∀ k, k ≠ pyStrip c → getKey d'.categories k = getKey d.categories k)) := by
  constructor
  · unfold add_entry
    split_ifs with h1 h2 h3 <;> simp_all
  · intro d' hd'
    obtain ⟨h1, h2, h3, rfl⟩ := add_entry_inv hd'
    exact ⟨rfl, rfl, getKey_mapVal_self d.categories (pyStrip c) _,
      fun k hk => getKey_mapVal_ne d.categories (pyStrip c) k _ hk⟩

theorem add_entry_spec_witness :
    (add_entry "X" "Item" none none "2025-10-12" "T0" ⟨[], [("X", [])], defaultSettings⟩).isSome = true ∧
    getKey [("X", [⟨"Item", none, "2025-10-12", "T0"⟩])] (pyStrip "X") =
      (getKey [("X", [])] (pyStrip "X")).map (fun es => es ++ [⟨pyStrip "Item", if pyStrip ((none : Option String).getD "") = "" then none else some (pyStrip ((none : Option String).getD "")), if pyStrip ((none : Option String).getD "") = "" then "2025-10-12" else pyStrip ((none : Option String).getD ""), "T0"⟩]) := by
  refine ⟨(add_entry_spec "X" "Item" none none "2025-10-12" "T0"
      ⟨[], [("X", [])], defaultSettings⟩).1.mpr (by decide), ?_⟩
  have h := (add_entry_spec "X" "Item" none none "2025-10-12" "T0"
      ⟨[], [("X", [])], defaultSettings⟩).2
      ⟨[], [("X", [⟨"Item", none, "2025-10-12", "T0"⟩])], defaultSettings⟩ (by decide)
  exact h.2.2.1

/-- C5 counterexample: on a category "X" with 2 entries, `delete_entry`
with index `-1` succeeds and removes the last entry, although `-1` is out
of range for zero-based indexing; and `delete_entry " X"` succeeds although
the category `" X"` (verbatim) does not exist in the document, because the
argument is trimmed before lookup. -/
theorem delete_entry_cex :
    delete_entry "X" (-1)
      ⟨[], [("X", [⟨"A", none, "d1", "t1"⟩, ⟨"B", none, "d2", "t2"⟩])], defaultSettings⟩ =
      some ⟨[], [("X", [⟨"A", none, "d1", "t1"⟩])], defaultSettings⟩ ∧
    delete_entry " X" 0
      ⟨[], [("X", [⟨"A", none, "d1", "t1"⟩, ⟨"B", none, "d2", "t2"⟩])], defaultSettings⟩ =
      some ⟨[], [("X", [⟨"B", none, "d2", "t2"⟩])], defaultSettings⟩ :=
  ⟨by decide, by decide⟩

/-- C5 (amended): `delete_entry` trims its category argument, then fails
(returns `False`, no write) exactly when the trimmed category is not a key
of the document or the index is invalid under Python sequence semantics,
i.e. outside `[-n, n)` for the category's current length `n`; in
particular `delete_entry "X" 99` on a category with 2 entries fails and
leaves both entries intact.  An index in `[-n, n)` (negative indices
addressing from the end) removes exactly the addressed entry, shifting
higher-indexed entries down, leaves every other category and field
unchanged, and persists. -/
theorem delete_entry_spec (c : String) (i : Int) (d : Document) :
    ((delete_entry c i d).isSome = true ↔
      (∃ items, getKey d.categories (pyStrip c) = some items ∧
        -(items.length : Int) ≤ i ∧ i < (items.length : Int))) ∧
    (∀ d', delete_entry c i d = some d' →
      ∃ items j, getKey d.categories (pyStrip c) = some items ∧
        pyIdx items.length i = some j ∧
        d'.personal_details = d.personal_details ∧ d'.settings = d.settings ∧
        getKey d'.categories (pyStrip c) = some (items.eraseIdx j) ∧
        (items.eraseIdx j).length + 1 = items.length ∧
        (∀ k, k ≠ pyStrip c → getKey d'.categories k = getKey d.categories k)) := by
  constructor
  · unfold delete_entry
    cases hkey : getKey d.categories (pyStrip c) with
    | none => simp
    | some items =>
      dsimp only
      simp only [Option.some.injEq]
      by_cases hemp : items.isEmpty
      · rw [if_pos hemp]
        have hnil : items = [] := List.isEmpty_iff.mp hemp
        subst hnil
        simp only [Option.isSome_none, Bool.false_eq_true, false_iff, not_exists]
        intro items' h'
        rcases h' with ⟨heq, h2, h3⟩
        subst heq
        simp only [List.length_nil, Nat.cast_zero] at h2 h3
        omega
      · rw [if_neg hemp]
        cases hj : pyIdx items.length i with
        | none =>
          simp only [Option.isSome_none, Bool.false_eq_true, false_iff, not_exists]
          rw [pyIdx_eq_none_iff] at hj
          intro items' h'
          rcases h' with ⟨heq, h2, h3⟩
          subst heq
          exact hj ⟨h2, h3⟩
        | some j =>
          dsimp only
          simp only [Option.isSome_some, true_iff]
          refine ⟨items, ⟨rfl, ?_⟩⟩
          have := pyIdx_lt hj
          unfold pyIdx at hj
          split_ifs at hj with h1 h2 <;> omega
  · intro d' hd'
    obtain ⟨items, j, hkey, hemp, hj, rfl⟩ := delete_entry_inv hd'
    refine ⟨items, j, hkey, hj, rfl, rfl, ?_, ?_, ?_⟩
    · rw [show (({ d with categories := setKey d.categories (pyStrip c) (items.eraseIdx j) } : Document)).categories = setKey d.categories (pyStrip c) (items.eraseIdx j) from rfl, getKey_setKey_self, hkey]
      rfl
    · exact List.length_eraseIdx_add_one (pyIdx_lt hj)
    · intro k hk
      exact getKey_setKey_ne d.categories (pyStrip c) k _ hk

theorem delete_entry_spec_witness :
    (delete_entry "X" 99
      ⟨[], [("X", [⟨"A", none, "d1", "t1"⟩, ⟨"B", none, "d2", "t2"⟩])], defaultSettings⟩).isSome = false := by
  have h := (delete_entry_spec "X" 99
    ⟨[], [("X", [⟨"A", none, "d1", "t1"⟩, ⟨"B", none, "d2", "t2"⟩])], defaultSettings⟩).1
  rw [show (99 : Int) = ((99 : Nat) : Int) from rfl] at h
  by_contra hcontra
  rw [Bool.not_eq_false] at hcontra
  obtain ⟨items, hitems, hrange⟩ := h.mp hcontra
  have : items = [⟨"A", none, "d1", "t1"⟩, ⟨"B", none, "d2", "t2"⟩] := by
    have : getKey (⟨[], [("X", [⟨"A", none, "d1", "t1"⟩, ⟨"B", none, "d2", "t2"⟩])], defaultSettings⟩ : Document).categories (pyStrip "X") = some [⟨"A", none, "d1", "t1"⟩, ⟨"B", none, "d2", "t2"⟩] := by decide
    rw [this] at hitems
    exact (Option.some.injEq _ _ ▸ hitems).symm
  subst this
  simp only [List.length_cons, List.length_nil] at hrange
  omega

/-- C6: `add_category` returns `False` with no write exactly when the
trimmed name is empty or already exists as a key (case-sensitive exact
match); otherwise it appends an empty entry list under the trimmed name,
changing nothing else, and persists.  Consequently a second call with the
same name fails and exactly one category with that key remains. -/
theorem add_category_spec (n : String) (d : Document) :
    (add_category n d = none ↔
      (pyStrip n = "" ∨ hasKey d.categories (pyStrip n) = true)) ∧
    (∀ d', add_category n d = some d' →
      d'.personal_details = d.personal_details ∧ d'.settings = d.settings ∧
      d'.categories = d.categories ++ [(pyStrip n, [])] ∧
      getKey d'.categories (pyStrip n) = some [] ∧
      add_category n d' = none ∧
      keyCount d'.categories (pyStrip n) = 1) := by
  refine ⟨add_category_none_iff n d, ?_⟩
  intro d' h
  obtain ⟨h1, h2, rfl⟩ := add_category_inv h
  refine ⟨rfl, rfl, rfl, getKey_append_single d.categories (pyStrip n) [] h2, ?_, ?_⟩
  · rw [add_category_none_iff]
    right
    exact hasKey_append_single d.categories (pyStrip n) []
  · rw [show (({ d with categories := d.categories ++ [(pyStrip n, [])] } : Document)).categories = d.categories ++ [(pyStrip n, [])] from rfl, keyCount_append_single, keyCount_eq_zero d.categories (pyStrip n) h2]

theorem add_category_spec_witness :
    add_category "X" (⟨[], [("X", [])], defaultSettings⟩ : Document) = none ∧
    keyCount ([("X", [])] : Categories) "X" = 1 := by
  have h := (add_category_spec "X" default_structure).2
    ⟨[], [("X", [])], defaultSettings⟩ (by decide)
  exact ⟨h.2.2.2.2.1, h.2.2.2.2.2⟩

/-- C7: whenever `set_settings` persists (the integer coercion does not
raise), the stored settings hold a concrete integer in `{1, 2}` and a
concrete boolean: a supplied `columns` coercing outside `{1, 2}` becomes
2, an absent `columns` falls back to the stored value (clamped the same
way), and an absent `separator` preserves the stored value coerced to
boolean; nothing but the settings is touched.  In particular
`set_settings {columns: 7, separator: "yes"}` stores `columns = 2` and
`separator = true` on any document. -/
theorem set_settings_spec (new : SettingsInput) (d : Document) :
    (∀ d', set_settings new d = some d' →
      d'.personal_details = d.personal_details ∧ d'.categories = d.categories ∧
      (∃ c : Int, d'.settings.columns = some (.jint c) ∧ (c = 1 ∨ c = 2)) ∧
      (∃ b : Bool, d'.settings.separator = some (.jbool b)) ∧
      (new.separator = none →
        d'.settings.separator = some (.jbool (pyTruthy (d.settings.separator.getD (.jbool true))))) ∧
      (∀ v c, new.columns = some v → pyInt v = some c → c ≠ 1 → c ≠ 2 →
        d'.settings.columns = some (.jint 2)) ∧
      (∀ c, new.columns = none → pyInt (d.settings.columns.getD (.jint 2)) = some c →
        d'.settings.columns = some (.jint (if c = 1 ∨ c = 2 then c else 2)))) ∧
    set_settings ⟨some (.jint 7), some (.jstr "yes")⟩ d =
      some { d with settings := ⟨some (.jint 2), some (.jbool true)⟩ } := by
  constructor
  · intro d' h
    obtain ⟨c, hc, rfl⟩ := set_settings_inv h
    refine ⟨rfl, rfl, ⟨if c = 1 ∨ c = 2 then c else 2, rfl, ?_⟩, ⟨_, rfl⟩, ?_, ?_, ?_⟩
    · split_ifs with hc' <;> omega
    · intro hsep
      simp [sanitizedSettings, hsep]
    · intro v c' hv hc' hne1 hne2
      rw [hv] at hc
      simp only [Option.getD_some] at hc
      rw [hc'] at hc
      injection hc with hc
      show some (JVal.jint (if c = 1 ∨ c = 2 then c else 2)) = some (JVal.jint 2)
      rw [← hc, if_neg (show ¬(c' = 1 ∨ c' = 2) from fun hor => hor.elim hne1 hne2)]
    · intro c' hnone hc'
      rw [hnone] at hc
      simp only [Option.getD_none] at hc
      rw [hc'] at hc
      injection hc with hc
      show some (JVal.jint (if c = 1 ∨ c = 2 then c else 2)) = some (JVal.jint (if c' = 1 ∨ c' = 2 then c' else 2))
      rw [hc]
  · show (match pyInt ((some (JVal.jint 7)).getD (d.settings.columns.getD (.jint 2))) with | none => none | some c => some { d with settings := sanitizedSettings ⟨some (.jint 7), some (.jstr "yes")⟩ d.settings c } : Option Document) = _
    norm_num [pyInt, sanitizedSettings, pyTruthy]
    decide

theorem set_settings_spec_witness :
    set_settings ⟨some (.jint 7), some (.jstr "yes")⟩ default_structure =
      some ⟨[], [], ⟨some (.jint 2), some (.jbool true)⟩⟩ ∧
    (∃ c : Int, (⟨some (.jint 2), some (.jbool true)⟩ : SettingsObj).columns = some (.jint c) ∧ (c = 1 ∨ c = 2)) := by
  refine ⟨(set_settings_spec ⟨some (.jint 7), some (.jstr "yes")⟩ default_structure).2, ?_⟩
  have h := (set_settings_spec ⟨some (.jint 7), some (.jstr "yes")⟩ default_structure).1
    ⟨[], [], ⟨some (.jint 2), some (.jbool true)⟩⟩ (by decide)
  exact h.2.2.1

/-- C10 counterexample: the claim "calling deleteCategory with a name
carrying surrounding whitespace returns false for every document state" is
violated by a document whose stored key itself carries the whitespace:
there the call succeeds and mutates the document (here the trimmed name
"X" is also an existing key). -/
theorem delete_category_cex :
    delete_category " X" ⟨[], [(" X", []), ("X", [])], defaultSettings⟩ =
      some ⟨[], [("X", [])], defaultSettings⟩ := by decide

/-- C10 (amended): `delete_category` matches its argument verbatim,
without trimming: whenever the untrimmed name is not itself a key, the
call returns `False` and leaves the document unchanged — even when the
trimmed name is an existing category key — in contrast with
`add_category` and `add_entry`, whose results only depend on the trimmed
category name. -/
theorem delete_category_verbatim (name : String) (d : Document)
    (h : hasKey d.categories name = false) :
    delete_category name d = none ∧
    (∀ n' : String, add_category n' d = add_category (pyStrip n') d) ∧
    (∀ c n' l dt today now, add_entry c n' l dt today now d = add_entry (pyStrip c) n' l dt today now d) := by
  refine ⟨?_, ?_, ?_⟩
  · unfold delete_category
    rw [if_neg]
    rw [h]
    exact Bool.false_ne_true
  · intro n'
    unfold add_category
    rw [pyStrip_idem]
  · intro c n' l dt today now
    unfold add_entry
    rw [pyStrip_idem]

theorem delete_category_verbatim_witness :
    delete_category " X" (⟨[], [("X", [])], defaultSettings⟩ : Document) = none :=
  (delete_category_verbatim " X" ⟨[], [("X", [])], defaultSettings⟩ (by decide)).1

/-- C9: in every document state reachable from the default document
through the Document Service operations, every entry of every category has
a name that is non-empty after trimming: `add_entry` rejects a name that
trims to empty rather than storing a placeholder, and no other operation
changes a stored entry's name. -/
theorem entry_names_invariant (d : Document) (h : Reachable d) : entryNamesOK d := by
  induction h with
  | init =>
    intro p hp e he
    simp [default_structure] at hp
  | setPersonal pr today _ ih =>
    intro p hp e he
    exact ih p hp e he
  | addCat n _ hsome ih =>
    obtain ⟨h1, h2, rfl⟩ := add_category_inv hsome
    intro p hp e he
    rcases List.mem_append.mp hp with hp' | hp'
    · exact ih p hp' e he
    · simp only [List.mem_singleton] at hp'
      subst hp'
      simp at he
  | delCat n _ hsome ih =>
    obtain ⟨h1, rfl⟩ := delete_category_inv hsome
    intro p hp e he
    exact ih p (mem_of_mem_eraseKey hp) e he
  | addEnt c n l dt today now _ hsome ih =>
    obtain ⟨h1, h2, h3, rfl⟩ := add_entry_inv hsome
    intro p hp e he
    obtain ⟨q, hq, hpq⟩ := mem_mapVal hp
    by_cases hqk : q.1 == pyStrip c
    · rw [if_pos hqk] at hpq
      subst hpq
      rcases List.mem_append.mp he with he' | he'
      · exact ih q hq e he'
      · simp only [List.mem_singleton] at he'
        subst he'
        rw [show (mkAddedEntry n l dt today now).name = pyStrip n from rfl, pyStrip_idem]
        exact h3
    · rw [if_neg hqk] at hpq
      subst hpq
      exact ih p hq e he
  | delEnt c i _ hsome ih =>
    obtain ⟨items, j, hkey, hemp, hj, rfl⟩ := delete_entry_inv hsome
    obtain ⟨k', hk'⟩ := getKey_mem _ _ items hkey
    intro p hp e he
    obtain ⟨q, hq, hpq⟩ := mem_mapVal hp
    by_cases hqk : q.1 == pyStrip c
    · rw [if_pos hqk] at hpq
      subst hpq
      exact ih (k', items) hk' e (mem_of_mem_eraseIdx he)
    · rw [if_neg hqk] at hpq
      subst hpq
      exact ih p hq e he
  | setSet s _ hsome ih =>
    obtain ⟨c, hc, rfl⟩ := set_settings_inv hsome
    intro p hp e he
    exact ih p hp e he

theorem entry_names_invariant_witness :
    entryNamesOK ⟨[], [("X", [⟨"Item", none, "2025-10-12", "T0"⟩])], defaultSettings⟩ := by
  have r1 : Reachable ⟨[], [("X", [])], defaultSettings⟩ :=
    Reachable.addCat "X" Reachable.init (by decide)
  have r2 : Reachable ⟨[], [("X", [⟨"Item", none, "2025-10-12", "T0"⟩])], defaultSettings⟩ :=
    Reachable.addEnt "X" "Item" none none "2025-10-12" "T0" r1 (by decide)
  exact entry_names_invariant _ r2

end ResumeManager
